import Mathlib

/-!
# Verification of the `xor` tool's Stream XOR Engine

Shallow embedding of `src/xor.c` (`xor_files`, lines 106-214).  Byte streams
are modelled as `List Nat` (each element a byte value); the chunked read loop,
the per-chunk zero-padding and XOR, the trailing-zero stripping and the final
write to the sink are each embedded as executable Lean functions that mirror
the corresponding C code.
-/

/-- The byte a source contributes at position `i`: its `i`-th element, or
`0x00` past its end (this is how `memset`-padding at lines 149-156 makes a
short read contribute zero bytes). -/
def byteAt (l : List Nat) (i : Nat) : Nat := l.getD i 0

/-- `#define CHUNK_SIZE 65536` (xor.c line 19). -/
def CHUNK_SIZE : Nat := 65536

/-- One iteration's XOR of a pair of reads (xor.c lines 149-166): let
`m = max read1 read2`, pad the shorter chunk with `0x00` up to `m`
(`memset`, lines 151-156) and form the `m`-byte chunk whose `i`-th byte is
`chunk1[i] ^ chunk2[i]` (lines 164-166). -/
def xorChunk (c1 c2 : List Nat) : List Nat :=
  (List.range (max c1.length c2.length)).map (fun i => Nat.xor (byteAt c1 i) (byteAt c2 i))

/-- The read loop of `xor_files` (xor.c lines 138-183), parametrised by the
block size `N` (the source fixes `N = CHUNK_SIZE`).  Each iteration reads up
to `N` bytes from each remaining stream (`fread`, lines 142-143); if both
reads return zero bytes the loop breaks (lines 145-147), otherwise the padded
XOR of the two reads is appended to the accumulated output (lines 149-175)
and the loop continues on the remaining streams. -/
def xorBlocks (N : Nat) (s1 s2 : List Nat) : List Nat :=
  if (s1.take N).length = 0 ∧ (s2.take N).length = 0 then
    []
  else
    xorChunk (s1.take N) (s2.take N) ++ xorBlocks N (s1.drop N) (s2.drop N)
termination_by s1.length + s2.length
decreasing_by
  simp only [List.length_take, List.length_drop, not_and] at *
  omega

/-- The trailing-zero strip (xor.c lines 185-192): remove bytes from the end
of the output while they equal `0x00`. -/
def stripTrailingZeros (l : List Nat) : List Nat :=
  (l.reverse.dropWhile (fun b => b == 0)).reverse

/-- The whole engine `xor_files` (xor.c lines 106-214), as a function from the
`preserve_zeros` flag and the two sources' byte contents to the final output
byte sequence: run the read loop with block size `CHUNK_SIZE`, then, when
`preserve_zeros` is false and the accumulated output is nonempty, strip
trailing zero bytes (lines 185-192). -/
def xor_files (preserve_zeros : Bool) (source1 source2 : List Nat) : List Nat :=
  let all_data := xorBlocks CHUNK_SIZE source1 source2
  if preserve_zeros = false ∧ 0 < all_data.length then
    stripTrailingZeros all_data
  else
    all_data

/-- The sequence of `fwrite` calls the engine makes on the data sink
(xor.c lines 194-201): exactly one write of the final output when it is
nonempty, and none at all when `output_size` is zero. -/
def sink_writes (preserve_zeros : Bool) (source1 source2 : List Nat) : List (List Nat) :=
  let out := xor_files preserve_zeros source1 source2
  if 0 < out.length then [out] else []

/-- Specification-level XOR, written from the spec's words (spec §3 invariant
and §4.1): the output has length `max (len source1) (len source2)` and its
`i`-th byte is `source1[i] ^ source2[i]`, a source shorter than `i+1`
contributing `0x00`.  This is the naive unblocked byte-wise XOR that claim C8
compares the blocked engine against. -/
def xorSpec (source1 source2 : List Nat) : List Nat :=
  (List.range (max source1.length source2.length)).map
    (fun i => Nat.xor (source1.getD i 0) (source2.getD i 0))

/-- Zero-padding a byte sequence to length `n` (it is left unchanged when
already at least that long). -/
def padTo (n : Nat) (l : List Nat) : List Nat :=
  l ++ List.replicate (n - l.length) 0

/-- A byte source as the C loop observes it: the bytes it delivers before
`fread` first returns 0, plus a flag recording whether the stream ended in a
read error rather than end-of-file.  The C read loop (xor.c lines 138-147)
inspects only `fread`'s return count and never calls `ferror`, so the flag is
invisible to it: an errored stream is indistinguishable from an exhausted
one. -/
structure ByteSource where
  data : List Nat
  readErr : Bool

/-- Running the engine on two byte sources, with errors surfaced in
`Except`: the C code (xor.c lines 138-201) checks `fread` only through its
return count and never calls `ferror`, so no execution path produces a read
error; the run always completes with the ordinary output. -/
def xor_files_run (preserve_zeros : Bool) (s1 s2 : ByteSource) :
    Except String (List Nat) :=
  Except.ok (xor_files preserve_zeros s1.data s2.data)

/-! ## Basic lemmas about `byteAt` -/

theorem byteAt_nil (i : Nat) : byteAt [] i = 0 := by
  simp [byteAt]

theorem byteAt_eq_zero_of_le {l : List Nat} {i : Nat} (h : l.length ≤ i) :
    byteAt l i = 0 := by
  simp [byteAt, List.getD_eq_getElem?_getD, List.getElem?_eq_none h]

theorem byteAt_take (l : List Nat) (n i : Nat) :
    byteAt (l.take n) i = if i < n then byteAt l i else 0 := by
  simp only [byteAt, List.getD_eq_getElem?_getD, List.getElem?_take]
  split <;> simp

theorem byteAt_drop (l : List Nat) (n i : Nat) :
    byteAt (l.drop n) i = byteAt l (n + i) := by
  simp [byteAt, List.getD_eq_getElem?_getD, List.getElem?_drop]

theorem byteAt_append (xs ys : List Nat) (i : Nat) :
    byteAt (xs ++ ys) i =
      if i < xs.length then byteAt xs i else byteAt ys (i - xs.length) := by
  simp only [byteAt, List.getD_eq_getElem?_getD]
  split
  next h => rw [List.getElem?_append_left h]
  next h => rw [List.getElem?_append_right (by omega)]

theorem ext_byteAt {l1 l2 : List Nat} (hlen : l1.length = l2.length)
    (h : ∀ i, byteAt l1 i = byteAt l2 i) : l1 = l2 := by
  apply List.ext_getElem hlen
  intro i h1 h2
  have hb := h i
  simp only [byteAt, List.getD_eq_getElem?_getD, List.getElem?_eq_getElem h1,
    List.getElem?_eq_getElem h2, Option.getD_some] at hb
  exact hb

/-! ## Lemmas about `xorChunk` -/

theorem length_xorChunk (c1 c2 : List Nat) :
    (xorChunk c1 c2).length = max c1.length c2.length := by
  simp [xorChunk]

theorem byteAt_xorChunk (c1 c2 : List Nat) (i : Nat) :
    byteAt (xorChunk c1 c2) i =
      if i < max c1.length c2.length then Nat.xor (byteAt c1 i) (byteAt c2 i)
      else 0 := by
  simp only [xorChunk, byteAt, List.getD_eq_getElem?_getD, List.getElem?_map]
  split
  next h =>
    rw [List.getElem?_range h]
    rfl
  next h =>
    rw [List.getElem?_eq_none (by simpa using h)]
    rfl

theorem xorChunk_eq_xorSpec (c1 c2 : List Nat) : xorChunk c1 c2 = xorSpec c1 c2 := rfl

theorem xorChunk_comm (c1 c2 : List Nat) : xorChunk c1 c2 = xorChunk c2 c1 := by
  apply ext_byteAt
  · simp [length_xorChunk, Nat.max_comm]
  · intro i
    rw [byteAt_xorChunk, byteAt_xorChunk, Nat.max_comm]
    split
    · exact Nat.xor_comm _ _
    · rfl

theorem range_map_byteAt (l : List Nat) :
    (List.range l.length).map (fun i => byteAt l i) = l := by
  apply List.ext_getElem (by simp)
  intro i h1 h2
  simp only [List.getElem_map, List.getElem_range, byteAt,
    List.getD_eq_getElem?_getD, List.getElem?_eq_getElem h2, Option.getD_some]

theorem xorChunk_nil_left (c : List Nat) : xorChunk [] c = c := by
  have h : ∀ i, Nat.xor (byteAt ([] : List Nat) i) (byteAt c i) = byteAt c i := by
    intro i
    rw [byteAt_nil]
    exact Nat.zero_xor _
  calc xorChunk [] c
      = (List.range c.length).map (fun i => byteAt c i) := by
        simp only [xorChunk, List.length_nil, Nat.max_eq_right (Nat.zero_le _)]
        exact List.map_congr_left (fun i _ => h i)
    _ = c := range_map_byteAt c

theorem xorChunk_nil_right (c : List Nat) : xorChunk c [] = c := by
  rw [xorChunk_comm]
  exact xorChunk_nil_left c

/-- Splitting both streams at `N` and XOR-ing the two halves separately gives
the same bytes as XOR-ing the whole streams: the first `N` positions are
covered by the taken prefixes and the rest by the dropped suffixes. -/
theorem xorChunk_split (N : Nat) (s1 s2 : List Nat) :
    xorChunk (s1.take N) (s2.take N) ++ xorChunk (s1.drop N) (s2.drop N) =
      xorChunk s1 s2 := by
  apply ext_byteAt
  · simp only [List.length_append, length_xorChunk, List.length_take,
      List.length_drop]
    omega
  · intro i
    rw [byteAt_append]
    simp only [length_xorChunk, List.length_take, List.length_drop]
    by_cases h1 : i < max (min N s1.length) (min N s2.length)
    · rw [if_pos h1]
      rw [byteAt_xorChunk]
      simp only [List.length_take]
      rw [if_pos h1, byteAt_take, byteAt_take, if_pos (by omega), if_pos (by omega)]
      rw [byteAt_xorChunk, if_pos (by omega)]
    · rw [if_neg h1]
      rw [byteAt_xorChunk]
      simp only [List.length_drop]
      rw [byteAt_xorChunk]
      by_cases h2 : i - max (min N s1.length) (min N s2.length) <
          max (s1.length - N) (s2.length - N)
      · rw [if_pos h2, byteAt_drop, byteAt_drop]
        have hi : N + (i - max (min N s1.length) (min N s2.length)) = i := by omega
        rw [hi, if_pos (by omega)]
      · rw [if_neg h2, if_neg (by omega)]

/-- The blocked read loop computes exactly the naive byte-wise XOR, for every
positive block size. -/
theorem xorBlocks_eq_chunk {N : Nat} (hN : 0 < N) (s1 s2 : List Nat) :
    xorBlocks N s1 s2 = xorChunk s1 s2 := by
  have H : ∀ n s1 s2, s1.length + s2.length ≤ n →
      xorBlocks N s1 s2 = xorChunk s1 s2 := by
    intro n
    induction n with
    | zero =>
      intro s1 s2 h
      have h1 : s1 = [] := List.eq_nil_of_length_eq_zero (by omega)
      have h2 : s2 = [] := List.eq_nil_of_length_eq_zero (by omega)
      subst h1; subst h2
      rw [xorBlocks]
      simp [xorChunk]
    | succ n ih =>
      intro s1 s2 h
      rw [xorBlocks]
      by_cases hc : (s1.take N).length = 0 ∧ (s2.take N).length = 0
      · rw [if_pos hc]
        have h1 : s1 = [] := by
          have := hc.1
          simp only [List.length_take] at this
          exact List.eq_nil_of_length_eq_zero (by omega)
        have h2 : s2 = [] := by
          have := hc.2
          simp only [List.length_take] at this
          exact List.eq_nil_of_length_eq_zero (by omega)
        subst h1; subst h2
        simp [xorChunk]
      · rw [if_neg hc]
        have hlen : (s1.drop N).length + (s2.drop N).length ≤ n := by
          simp only [List.length_take, not_and] at hc
          simp only [List.length_drop]
          omega
        rw [ih (s1.drop N) (s2.drop N) hlen]
        exact xorChunk_split N s1 s2
  exact H (s1.length + s2.length) s1 s2 (Nat.le_refl _)

/-- Closed form of the engine: the untrimmed result is the naive XOR, and the
`preserve_zeros = false` path strips trailing zeros from it. -/
theorem xor_files_eq (p : Bool) (s1 s2 : List Nat) :
    xor_files p s1 s2 =
      if p then xorChunk s1 s2 else stripTrailingZeros (xorChunk s1 s2) := by
  unfold xor_files
  rw [xorBlocks_eq_chunk (by norm_num [CHUNK_SIZE])]
  cases p with
  | true => simp
  | false =>
    simp only [Bool.false_eq_true, if_false]
    by_cases h : 0 < (xorChunk s1 s2).length
    · simp [h]
    · have hnil : xorChunk s1 s2 = [] := List.eq_nil_of_length_eq_zero (by omega)
      simp [hnil, stripTrailingZeros]

/-! ## Lemmas about `stripTrailingZeros` -/

theorem dropWhile_head_false {p : Nat → Bool} :
    ∀ (l : List Nat) (a : Nat) (t : List Nat), l.dropWhile p = a :: t → p a = false := by
  intro l
  induction l with
  | nil =>
    intro a t h
    simp [List.dropWhile] at h
  | cons x xs ih =>
    intro a t h
    by_cases hx : p x
    · rw [List.dropWhile_cons_of_pos hx] at h
      exact ih a t h
    · rw [List.dropWhile_cons_of_neg hx] at h
      cases h
      simpa using hx

theorem stripTrailingZeros_nil : stripTrailingZeros [] = [] := rfl

/-- The strip yields either an empty sequence or one whose last byte is
nonzero. -/
theorem stripTrailingZeros_last (l : List Nat) :
    stripTrailingZeros l = [] ∨
      ∃ b, (stripTrailingZeros l).getLast? = some b ∧ b ≠ 0 := by
  unfold stripTrailingZeros
  cases h : l.reverse.dropWhile (fun b => b == 0) with
  | nil => exact Or.inl (by simp [h])
  | cons a t =>
    right
    refine ⟨a, ?_, ?_⟩
    · rw [List.getLast?_reverse]
      rfl
    · have := dropWhile_head_false l.reverse a t h
      simpa using this

/-- Stripping an all-zero sequence yields the empty sequence. -/
theorem stripTrailingZeros_all_zero {l : List Nat} (h : ∀ b ∈ l, b = 0) :
    stripTrailingZeros l = [] := by
  unfold stripTrailingZeros
  have hd : l.reverse.dropWhile (fun b => b == 0) = [] := by
    rw [List.dropWhile_eq_nil_iff]
    intro x hx
    simp [h x (List.mem_reverse.mp hx)]
  simp [hd]

/-! ## Lemmas about `padTo` -/

theorem length_padTo (n : Nat) (l : List Nat) :
    (padTo n l).length = max n l.length := by
  simp [padTo]
  omega

theorem byteAt_replicate_zero (n i : Nat) :
    byteAt (List.replicate n 0) i = 0 := by
  simp only [byteAt, List.getD_eq_getElem?_getD, List.getElem?_replicate]
  split <;> rfl

theorem byteAt_padTo (n : Nat) (l : List Nat) (i : Nat) :
    byteAt (padTo n l) i = byteAt l i := by
  rw [padTo, byteAt_append]
  split
  · rfl
  next h =>
    rw [byteAt_replicate_zero, byteAt_eq_zero_of_le (by omega)]

/-- The algebraic heart of the recovery property: re-XOR-ing the result with
one source recovers the other source zero-padded to the result's length. -/
theorem xorChunk_roundtrip (src1 src2 : List Nat) :
    xorChunk (xorChunk src1 src2) src2 = padTo (max src1.length src2.length) src1 := by
  apply ext_byteAt
  · simp only [length_xorChunk, length_padTo]
    omega
  · intro i
    rw [byteAt_padTo, byteAt_xorChunk, length_xorChunk, byteAt_xorChunk]
    by_cases h1 : i < max (max src1.length src2.length) src2.length
    · rw [if_pos h1, if_pos (by omega)]
      calc Nat.xor (Nat.xor (byteAt src1 i) (byteAt src2 i)) (byteAt src2 i)
          = Nat.xor (byteAt src1 i) (Nat.xor (byteAt src2 i) (byteAt src2 i)) :=
            Nat.xor_assoc _ _ _
        _ = Nat.xor (byteAt src1 i) 0 :=
            congrArg (fun z => Nat.xor (byteAt src1 i) z) (Nat.xor_self _)
        _ = byteAt src1 i := Nat.xor_zero _
    · rw [if_neg h1, byteAt_eq_zero_of_le (by omega)]

/-! ## Convenient closed forms of the engine -/

theorem xor_files_true_eq (s1 s2 : List Nat) :
    xor_files true s1 s2 = xorChunk s1 s2 := by
  rw [xor_files_eq]
  rfl

theorem xor_files_false_eq (s1 s2 : List Nat) :
    xor_files false s1 s2 = stripTrailingZeros (xorChunk s1 s2) := by
  rw [xor_files_eq]
  rfl

/-! ## The claims -/

/-- C1: for every pair of input byte sequences, the output before trimming has
length `max (len source1) (len source2)`, and for every position `i` below
that length the output byte at `i` is `source1[i] XOR source2[i]`, a source
shorter than `i+1` contributing `0x00` at position `i`. -/
theorem c1_untrimmed_output (s1 s2 : List Nat) :
    (xorBlocks CHUNK_SIZE s1 s2).length = max s1.length s2.length ∧
    ∀ i, i < max s1.length s2.length →
      (xorBlocks CHUNK_SIZE s1 s2).getD i 0 = Nat.xor (s1.getD i 0) (s2.getD i 0) := by
  rw [xorBlocks_eq_chunk (by norm_num [CHUNK_SIZE])]
  constructor
  · exact length_xorChunk s1 s2
  · intro i hi
    have hb := byteAt_xorChunk s1 s2 i
    rw [if_pos hi] at hb
    exact hb

theorem c1_untrimmed_output_witness :
    (1 : Nat) < max (List.length [65]) (List.length [66, 5]) ∧
    (xorBlocks CHUNK_SIZE [65] [66, 5]).getD 1 0 =
      Nat.xor (List.getD [65] 1 0) (List.getD [66, 5] 1 0) :=
  ⟨by decide, (c1_untrimmed_output [65] [66, 5]).2 1 (by decide)⟩

/-- C2 counterexample: at `A = []`, `B = [0x01]` the claim's round-trip fails:
`R = xor([], [0x01], preserve (equals) true) = [0x01]` and
`xor(R, B, preserve (equals) true) = [0x00]`, which is not `A = []` — the
recovered sequence keeps the padded length `max (len A) (len B)`. -/
theorem c2_roundtrip_exact_fails :
    xor_files true (xor_files true [] [1]) [1] ≠ [] := by
  rw [xor_files_true_eq, xor_files_true_eq]
  decide

/-- C2 (amended): for all byte sequences `A`, `B` and
`R = xor(A, B, preserve (equals) true)`, `xor(R, B, preserve (equals) true)`
equals `A` zero-padded to length `max (len A) (len B)`, and
`xor(R, A, preserve (equals) true)` equals `B` zero-padded to the same
length (so the round-trip recovers `A` and `B` exactly whenever the two
inputs have equal length). -/
theorem c2_roundtrip_padded (A B : List Nat) :
    xor_files true (xor_files true A B) B = padTo (max A.length B.length) A ∧
    xor_files true (xor_files true A B) A = padTo (max A.length B.length) B := by
  simp only [xor_files_true_eq]
  constructor
  · exact xorChunk_roundtrip A B
  · rw [xorChunk_comm A B, xorChunk_roundtrip B A, Nat.max_comm B.length A.length]

/-- C3: the trimmed output equals the untrimmed output with every trailing
`0x00` byte removed, and trimming an all-zero result yields the empty
sequence. -/
theorem c3_trim_correct (A B : List Nat) :
    xor_files false A B = stripTrailingZeros (xor_files true A B) ∧
    ((∀ b ∈ xor_files true A B, b = 0) → xor_files false A B = []) := by
  constructor
  · rw [xor_files_false_eq, xor_files_true_eq]
  · intro hz
    rw [xor_files_false_eq]
    apply stripTrailingZeros_all_zero
    rw [xor_files_true_eq] at hz
    exact hz

theorem c3_trim_correct_witness :
    xor_files false [1] [1] = [] ∧
    xor_files false [2, 3] [1] = stripTrailingZeros (xor_files true [2, 3] [1]) :=
  ⟨(c3_trim_correct [1] [1]).2 (by rw [xor_files_true_eq]; decide),
   (c3_trim_correct [2, 3] [1]).1⟩

/-- C4: the code cannot surface a read error.  The read loop
(xor.c lines 138-147) inspects only `fread`'s return count and never calls
`ferror`, so a source that fails with a read error after delivering its
bytes is treated exactly like an exhausted one: the run always returns a
successful (possibly partial) result.  At the failing input — source1 = the
byte `0x01` followed by a read error, source2 = `[0x02]` — the engine
returns `Except.ok [0x03]` (exit status 0) instead of an I/O error. -/
theorem c4_read_error_ignored :
    xor_files_run false ⟨[1], true⟩ ⟨[2], false⟩ = Except.ok [3] ∧
    ∀ (p : Bool) (s1 s2 : ByteSource), ∃ out, xor_files_run p s1 s2 = Except.ok out := by
  constructor
  · show Except.ok (xor_files false [1] [2]) = Except.ok [3]
    apply congrArg Except.ok
    rw [xor_files_false_eq]
    decide
  · intro p s1 s2
    exact ⟨xor_files p s1.data s2.data, rfl⟩

/-- C5: the read loop terminates exactly when both sources report zero bytes
read in the same iteration; otherwise (in particular when only one source
reads zero bytes while the other reads at least one) the iteration appends
the padded XOR of the two reads and the loop continues, producing a nonempty
output. -/
theorem c5_termination (s1 s2 : List Nat) :
    ((s1.take CHUNK_SIZE).length = 0 ∧ (s2.take CHUNK_SIZE).length = 0 →
        xorBlocks CHUNK_SIZE s1 s2 = []) ∧
    (¬ ((s1.take CHUNK_SIZE).length = 0 ∧ (s2.take CHUNK_SIZE).length = 0) →
        xorBlocks CHUNK_SIZE s1 s2 =
          xorChunk (s1.take CHUNK_SIZE) (s2.take CHUNK_SIZE) ++
            xorBlocks CHUNK_SIZE (s1.drop CHUNK_SIZE) (s2.drop CHUNK_SIZE) ∧
        xorBlocks CHUNK_SIZE s1 s2 ≠ []) := by
  constructor
  · intro h
    rw [xorBlocks, if_pos h]
  · intro h
    constructor
    · rw [xorBlocks]
      rw [if_neg h]
    · rw [xorBlocks_eq_chunk (by norm_num [CHUNK_SIZE])]
      intro hnil
      have hlen := length_xorChunk s1 s2
      rw [hnil] at hlen
      simp only [List.length_nil] at hlen
      simp only [List.length_take] at h
      omega

theorem c5_termination_witness :
    xorBlocks CHUNK_SIZE [] [] = [] ∧ xorBlocks CHUNK_SIZE [1] [] ≠ [] :=
  ⟨(c5_termination [] []).1 (by decide),
   ((c5_termination [1] []).2 (by decide)).2⟩

/-- C6: when `len A < len B`, the untrimmed result has length `len B` and
agrees with `B` on every position from `len A` up to `len B`. -/
theorem c6_padding (A B : List Nat) (h : A.length < B.length) :
    (xor_files true A B).length = B.length ∧
    ∀ i, A.length ≤ i → i < B.length →
      (xor_files true A B).getD i 0 = B.getD i 0 := by
  rw [xor_files_true_eq]
  constructor
  · rw [length_xorChunk]
    omega
  · intro i h1 h2
    have hb := byteAt_xorChunk A B i
    rw [if_pos (by omega), byteAt_eq_zero_of_le (l := A) (by omega)] at hb
    show byteAt (xorChunk A B) i = byteAt B i
    rw [hb]
    exact Nat.zero_xor _

theorem c6_padding_witness :
    List.length ([] : List Nat) < List.length [7] ∧
    (xor_files true [] [7]).getD 0 0 = List.getD [7] 0 0 :=
  ⟨by decide, (c6_padding [] [7] (by decide)).2 0 (by decide) (by decide)⟩

/-- C7: with both sources empty the output is empty regardless of the flag;
with one source empty the untrimmed output equals the other source's bytes
(XOR with zero is the identity), and on a non-preserving run the trailing
zero bytes of that source are additionally stripped. -/
theorem c7_empty_source_cases (p : Bool) (B : List Nat) :
    xor_files p [] [] = [] ∧
    xor_files true [] B = B ∧
    xor_files true B [] = B ∧
    xor_files false [] B = stripTrailingZeros B ∧
    xor_files false B [] = stripTrailingZeros B := by
  have h0 : xorChunk ([] : List Nat) [] = [] := xorChunk_nil_left []
  refine ⟨?_, ?_, ?_, ?_, ?_⟩
  · cases p with
    | true => rw [xor_files_true_eq, h0]
    | false => rw [xor_files_false_eq, h0, stripTrailingZeros_nil]
  · rw [xor_files_true_eq, xorChunk_nil_left]
  · rw [xor_files_true_eq, xorChunk_nil_right]
  · rw [xor_files_false_eq, xorChunk_nil_left]
  · rw [xor_files_false_eq, xorChunk_nil_right]

/-- C8: the block size is not a correctness parameter: for every positive
block size the read loop produces the same output as the naive unblocked
byte-wise XOR with zero padding, hence the same output as with any other
positive block size. -/
theorem c8_block_size_irrelevant (N M : Nat) (hN : 0 < N) (hM : 0 < M)
    (s1 s2 : List Nat) :
    xorBlocks N s1 s2 = xorSpec s1 s2 ∧
    xorBlocks N s1 s2 = xorBlocks M s1 s2 := by
  constructor
  · rw [xorBlocks_eq_chunk hN]
    exact xorChunk_eq_xorSpec s1 s2
  · rw [xorBlocks_eq_chunk hN, xorBlocks_eq_chunk hM]

theorem c8_block_size_irrelevant_witness :
    (0 : Nat) < 1 ∧ (0 : Nat) < 3 ∧
    (xorBlocks 1 [1, 2, 3] [5] = xorSpec [1, 2, 3] [5] ∧
     xorBlocks 1 [1, 2, 3] [5] = xorBlocks 3 [1, 2, 3] [5]) :=
  ⟨by decide, by decide,
   c8_block_size_irrelevant 1 3 (by decide) (by decide) [1, 2, 3] [5]⟩

/-- C9: on a non-preserving run the final output is either empty or ends in a
nonzero byte, and when it is empty nothing at all is written to the data
sink. -/
theorem c9_trimmed_output_sink (s1 s2 : List Nat) :
    (xor_files false s1 s2 = [] ∨
      ∃ b, (xor_files false s1 s2).getLast? = some b ∧ b ≠ 0) ∧
    (xor_files false s1 s2 = [] → sink_writes false s1 s2 = []) := by
  constructor
  · rw [xor_files_false_eq]
    exact stripTrailingZeros_last _
  · intro h
    unfold sink_writes
    rw [h]
    simp

theorem c9_trimmed_output_sink_witness :
    xor_files false [1] [1] = [] ∧ sink_writes false [1] [1] = [] := by
  have h : xor_files false [1] [1] = [] := by
    rw [xor_files_false_eq]
    decide
  exact ⟨h, (c9_trimmed_output_sink [1] [1]).2 h⟩

/-- C10: the engine is commutative in its two sources, for each value of the
`preserve_zeros` flag. -/
theorem c10_commutative (p : Bool) (A B : List Nat) :
    xor_files p A B = xor_files p B A := by
  rw [xor_files_eq, xor_files_eq, xorChunk_comm]
